import Mathlib

/-!
Shallow embedding of the webdav-backup synchronization engine
(file scanner, hash cache, transfer queue, resumable uploader,
progress tracker, remote-CLI output classification, restore filter),
with theorems checking the natural-language specification against it.
-/

namespace WebdavBackup

/-! ## Remote-CLI output classification (`internxt-service.ts`) -/

/-- `charsLeading needle hay` is true iff `needle` is a prefix of `hay`. -/
def charsLeading : List Char → List Char → Bool
  | [], _ => true
  | _ :: _, [] => false
  | n :: ns, h :: hs => n = h && charsLeading ns hs

/-- `charsOccurs needle hay` is true iff `needle` occurs contiguously
inside `hay`. -/
def charsOccurs (needle : List Char) : List Char → Bool
  | [] => needle.isEmpty
  | h :: hs => charsLeading needle (h :: hs) || charsOccurs needle hs

/-- Models JavaScript `output.toLowerCase().includes(sub)` for an
already lowercase `sub`. -/
def containsLower (output : String) (sub : String) : Bool :=
  charsOccurs sub.toList (output.toList.map Char.toLower)

/-- Models JavaScript `stdout || stderr`: `stdout` when nonempty
(truthy), else `stderr`. -/
def jsOr (stdout stderr : String) : String :=
  if stdout = "" then stderr else stdout

/-- Success flag of `internxtUploadFile` as a function of the CLI
invocation outcome: `execAsync` throws on a nonzero exit (the catch
returns failure); otherwise the examined output is `stdout || stderr`
and the call fails when it contains `error` or `failed`
(case-insensitive). -/
def internxtUploadFilePure (exitOk : Bool) (stdout stderr : String) : Bool :=
  if exitOk then
    let output := jsOr stdout stderr
    !(containsLower output "error" || containsLower output "failed")
  else
    false

/-- Success flag of `internxtDownloadFile`: same classification as the
plain upload. -/
def internxtDownloadFilePure (exitOk : Bool) (stdout stderr : String) : Bool :=
  internxtUploadFilePure exitOk stdout stderr

/-- Success flag of `internxtUploadFileWithProgress` at `close`: the
full output is `stdout ++ stderr` accumulated from the streams, and the
call succeeds iff the exit code is `0` and the full output does not
contain `error` (case-insensitive); `failed` is not examined. -/
def internxtUploadFileWithProgressPure (code : Int) (stdoutAcc stderrAcc : String) : Bool :=
  let fullOutput := stdoutAcc ++ stderrAcc
  code = 0 && !(containsLower fullOutput "error")

/-- Success flag of `internxtDownloadFileWithProgress` at `close`: same
classification as the streamed upload. -/
def internxtDownloadFileWithProgressPure (code : Int) (stdoutAcc stderrAcc : String) : Bool :=
  internxtUploadFileWithProgressPure code stdoutAcc stderrAcc

/-- Success flag of `internxtCreateFolder`: on a zero exit the examined
output is `stdout || stderr` and the call fails only when it contains
`error` without `already exists`; on a thrown error the call succeeds
iff the error message contains `already exists`. -/
def internxtCreateFolderPure (exitOk : Bool) (stdout stderr errMsg : String) : Bool :=
  if exitOk then
    let output := jsOr stdout stderr
    !(containsLower output "error" && !(containsLower output "already exists"))
  else
    containsLower errMsg "already exists"

/-! ## Resumable-upload size threshold (`resumable-uploader`) -/

/-- `shouldUseResumable` from the resumable uploader:
`fileSize > 100 * 1024 * 1024`. -/
def shouldUseResumable (fileSize : Nat) : Bool :=
  fileSize > 100 * 1024 * 1024

/-! ## Transfer queue (`file-upload-manager.ts`)

The queue state keeps the module-level mutable variables that matter for
completion detection: the pending list (only its length matters for the
completion contract), the active-upload set (its size), whether a
completion callback was installed, whether the 500 ms polling interval
is live, and how many times the callback has been invoked so far.
Handler executions are asynchronous; their completions and interval
ticks are the events interleaved by the JavaScript event loop. -/

structure QState where
  pending : Nat
  active : Nat
  maxConcurrency : Nat
  callbackSet : Bool
  intervalActive : Bool
  fired : Nat
deriving Repr, DecidableEq

/-- `processNextFile`: with an empty pending list it invokes the
completion callback when the active set is empty; otherwise, below the
concurrency bound, it shifts one pending file and starts its handler
(recorded as `active + 1`). -/
def processNextFile (s : QState) : QState :=
  if s.pending = 0 then
    if s.active = 0 ∧ s.callbackSet then { s with fired := s.fired + 1 } else s
  else if s.active < s.maxConcurrency then
    { s with pending := s.pending - 1, active := s.active + 1 }
  else s

/-- Iterate `processNextFile` the given number of times (the
`for` loop in `startFileQueue`). -/
def processNextFileIter : Nat → QState → QState
  | 0, s => s
  | k + 1, s => processNextFileIter k (processNextFile s)

/-- `startFileQueue(onComplete)`: store the callback, call
`processNextFile` `min(maxConcurrency, pending.length)` times, then,
when a callback was given, install the 500 ms completion-polling
interval. -/
def startFileQueue (hasCallback : Bool) (s : QState) : QState :=
  let s1 := { s with callbackSet := hasCallback }
  let s2 := processNextFileIter (min s1.maxConcurrency s1.pending) s1
  if s2.callbackSet then { s2 with intervalActive := true } else s2

/-- Events the event loop can deliver to the started queue: a handler
completion (its `then`/`catch` continuation) or a tick of the polling
interval. -/
inductive QEvent where
  | complete
  | tick
deriving Repr, DecidableEq

/-- One event-loop step of the started queue. A completion removes the
upload from the active set and calls `processNextFile`; an interval
tick, while the interval is live, fires the callback and clears the
interval once the pending list and the active set are both empty. -/
def qstep (s : QState) : QEvent → QState
  | .complete => processNextFile { s with active := s.active - 1 }
  | .tick =>
    if s.intervalActive then
      if s.pending = 0 ∧ s.active = 0 then
        { s with intervalActive := false, fired := s.fired + 1 }
      else s
    else s

/-- Run a sequence of event-loop steps. -/
def qrun (s : QState) : List QEvent → QState
  | [] => s
  | e :: es => qrun (qstep s e) es

/-! ## Resumable uploader retry loop (`uploadLargeFile`) -/

/-- The delay slept before retry number `retryCount`: the configured
test delay when present, else exponential backoff
`min(1000 * 2 ^ retryCount, 10000)` milliseconds. -/
def retryDelay (retryDelayMs : Option Nat) (retryCount : Nat) : Nat :=
  retryDelayMs.getD (min (1000 * 2 ^ retryCount) 10000)

/-- Outcome of the retry loop of `uploadLargeFile` for a
super-threshold file: whether it returned success, how many streamed
upload attempts ran, the backoff delays slept between attempts, and
whether the loop persisted the upload-state file on the way out. -/
structure RetryOutcome where
  success : Bool
  attempts : Nat
  delays : List Nat
  persisted : Bool
deriving Repr, DecidableEq

/-- The `while (retryCount < maxRetries)` loop of `uploadLargeFile`:
`results k` is the success of the `k`-th streamed upload attempt
(0-based). On success the loop clears the state file and returns; on
failure it increments `retryCount`, persists the state and returns once
`retryCount >= maxRetries`, and otherwise sleeps
`retryDelay retryDelayMs retryCount` and iterates. `fuel` bounds the
iteration count by `maxRetries - retryCount`. -/
def retryLoopAux (results : Nat → Bool) (retryDelayMs : Option Nat)
    (maxRetries : Nat) : Nat → Nat → List Nat → RetryOutcome
  | 0, _, delaysRev =>
    { success := false, attempts := 0, delays := delaysRev.reverse, persisted := false }
  | fuel + 1, retryCount, delaysRev =>
    if retryCount < maxRetries then
      if results retryCount then
        { success := true, attempts := retryCount + 1,
          delays := delaysRev.reverse, persisted := false }
      else
        let rc := retryCount + 1
        if rc ≥ maxRetries then
          { success := false, attempts := rc,
            delays := delaysRev.reverse, persisted := true }
        else
          retryLoopAux results retryDelayMs maxRetries fuel rc
            (retryDelay retryDelayMs rc :: delaysRev)
    else
      { success := false, attempts := retryCount,
        delays := delaysRev.reverse, persisted := false }

/-- The retry loop as entered by `uploadLargeFile`: `retryCount = 0`,
`maxRetries = 3`. -/
def uploadLargeFileRetry (results : Nat → Bool) (retryDelayMs : Option Nat) :
    RetryOutcome :=
  retryLoopAux results retryDelayMs 3 3 0 []

/-! ## Resumable upload state files

The state world is the upload-state file for the one local path a call
addresses: every filesystem operation of `uploadLargeFile`,
`getResumableProgress` and `clearResumableState` targets
`getStateFilePath(filePath)` of that same path, so `Option
ChunkedUploadState` models presence and content of that file. -/

structure ChunkedUploadState where
  filePath : String
  remotePath : String
  chunkSize : Nat
  totalChunks : Nat
  uploadedChunks : List Nat
  checksum : String
  timestamp : Nat
deriving Repr, DecidableEq

/-- `loadState`: absent file yields no state; a present state whose
stored checksum differs from the file's current SHA-256 is discarded
(`clearResumableState`) and yields no state; otherwise the state is
returned. Returns the loaded state and the state file afterwards. -/
def loadStateWorld (currentChecksum : String)
    (world : Option ChunkedUploadState) :
    Option ChunkedUploadState × Option ChunkedUploadState :=
  match world with
  | none => (none, none)
  | some st =>
    if st.checksum ≠ currentChecksum then (none, none) else (some st, some st)

/-- `uploadLargeFile` over the state world. `results k` is the success
of the `k`-th streamed upload attempt, `smallUploadOk` the outcome of
the delegated streamed upload for a sub-threshold file, `now` the
timestamp of a fresh state. Returns the success flag and the state file
afterwards: success clears it, exhausted retries persist it. -/
def uploadLargeFileWorld (fileSize chunkSize : Nat) (currentChecksum : String)
    (filePath remotePath : String) (now : Nat)
    (results : Nat → Bool) (retryDelayMs : Option Nat) (smallUploadOk : Bool)
    (world : Option ChunkedUploadState) : Bool × Option ChunkedUploadState :=
  if ¬ shouldUseResumable fileSize then
    (smallUploadOk, world)
  else
    let loaded := loadStateWorld currentChecksum world
    let state :=
      match loaded.1 with
      | some st => st
      | none =>
        { filePath := filePath, remotePath := remotePath,
          chunkSize := chunkSize,
          totalChunks := (fileSize + chunkSize - 1) / chunkSize,
          uploadedChunks := [], checksum := currentChecksum,
          timestamp := now }
    let outcome := uploadLargeFileRetry results retryDelayMs
    if outcome.success then (true, none)
    else if outcome.persisted then (false, some state)
    else (false, loaded.2)

/-- `getResumableProgress`: load the state (with checksum
verification); report `0` without state, else
`Math.round(uploadedChunks.length / totalChunks * 100)`. -/
def getResumableProgressWorld (currentChecksum : String)
    (world : Option ChunkedUploadState) : Nat × Option ChunkedUploadState :=
  let loaded := loadStateWorld currentChecksum world
  match loaded.1 with
  | none => (0, loaded.2)
  | some st =>
    ((round ((st.uploadedChunks.length * 100 : ℚ) / st.totalChunks)).toNat,
      loaded.2)

/-! ## Hash cache (`hash-cache.ts`) -/

/-- `normalizePath` from `utils/path.ts`: replace every backslash with
a forward slash. -/
def normalizePath (p : String) : String :=
  String.mk (p.toList.map (fun c => if c = '\\' then '/' else c))

/-- JavaScript `Map.get`. -/
def mapGet (k : String) : List (String × String) → Option String
  | [] => none
  | (k', v') :: rest => if k' = k then some v' else mapGet k rest

/-- JavaScript `Map.set`: replace in place, else append. -/
def mapSet (k v : String) : List (String × String) → List (String × String)
  | [] => [(k, v)]
  | (k', v') :: rest =>
    if k' = k then (k, v) :: rest else (k', v') :: mapSet k v rest

/-- The hash-cache world: the in-memory map and the persisted document. -/
structure HashCacheWorld where
  cache : List (String × String)
  disk : List (String × String)
deriving Repr, DecidableEq

/-- `hashCacheHasChanged`: hash the file at the normalized path (`md5`
returns `none` on a read or hash error, absorbed by the catch that
returns `true`); a missing (or JavaScript-falsy, i.e. empty) stored
digest or a differing one stores the fresh digest, saves the cache and
returns `true`; an equal stored digest returns `false` untouched. -/
def hashCacheHasChanged (md5 : String → Option String) (filePath : String)
    (w : HashCacheWorld) : Bool × HashCacheWorld :=
  let p := normalizePath filePath
  match md5 p with
  | none => (true, w)
  | some currentHash =>
    match mapGet p w.cache with
    | none =>
      let c := mapSet p currentHash w.cache
      (true, { cache := c, disk := c })
    | some storedHash =>
      if storedHash = "" then
        let c := mapSet p currentHash w.cache
        (true, { cache := c, disk := c })
      else if currentHash ≠ storedHash then
        let c := mapSet p currentHash w.cache
        (true, { cache := c, disk := c })
      else
        (false, w)

/-! ## File scanner (`file-scanner.ts`)

The directory tree is modelled with paths as lists of name components:
`path.join dir name` appends a component, `path.relative base full`
strips the base prefix, which the scanner maintains by accumulating the
relative components alongside the absolute ones. -/

inductive FSTree where
  | file (size : Nat)
  | dir (entries : List (String × FSTree))
  | other
deriving Repr

/-- JavaScript `entry.name.startsWith(".")`. -/
def startsWithDot (name : String) : Bool :=
  charsLeading ".".toList name.toList

/-- A record emitted by `scanDirectory` (checksum and `hasChanged`
omitted; the claim concerns occurrence of paths). -/
structure ScanRecord where
  relativePath : List String
  size : Nat
deriving Repr, DecidableEq

/-- `scanDirectory` over the entries of one directory: skip entries
whose name starts with `.` and the entry whose full path is the
scanner-state file; recurse into directories, record regular files,
ignore anything else. `abs` and `rel` are the absolute and
base-relative component paths of the directory being read. -/
def scanEntries (statePath : List String) :
    List String → List String → List (String × FSTree) → List ScanRecord
  | _, _, [] => []
  | abs, rel, (name, t) :: rest =>
    if startsWithDot name || abs ++ [name] = statePath then
      scanEntries statePath abs rel rest
    else
      match t with
      | .dir es =>
        scanEntries statePath (abs ++ [name]) (rel ++ [name]) es ++
          scanEntries statePath abs rel rest
      | .file sz =>
        { relativePath := rel ++ [name], size := sz } ::
          scanEntries statePath abs rel rest
      | .other => scanEntries statePath abs rel rest

/-- `scanDirectory(sourceDir)` as called by `scanFiles`: walk the
source root's entries with empty relative accumulator. -/
def scanDirectoryRoot (statePath sourceDir : List String)
    (entries : List (String × FSTree)) : List ScanRecord :=
  scanEntries statePath sourceDir [] entries

/-- A regular file of size `sz` sits at relative component path `p`
inside the entry list. -/
inductive HasFile : List (String × FSTree) → List String → Nat → Prop
  | file {es : List (String × FSTree)} {name : String} {sz : Nat} :
      (name, FSTree.file sz) ∈ es → HasFile es [name] sz
  | dir {es es' : List (String × FSTree)} {name : String} {p : List String}
      {sz : Nat} :
      (name, FSTree.dir es') ∈ es → HasFile es' p sz →
      HasFile es (name :: p) sz

/-- Well-formed directory contents: sibling names are distinct at every
level (a real filesystem invariant). -/
inductive WFTree : FSTree → Prop
  | file {sz : Nat} : WFTree (.file sz)
  | other : WFTree .other
  | dir {es : List (String × FSTree)} :
      (es.map Prod.fst).Nodup → (∀ e ∈ es, WFTree e.2) → WFTree (.dir es)

/-! ## Uploader run (`uploader` / `progress-tracker`)

`handleFileUpload` is driven by per-task data: the scanner's tri-state
`hasChanged` flag, the answer `hashCacheHasChanged` would give when
consulted, and the outcome of the remote upload (`uploadOk = false`
covers both a failed result and a thrown error, which both record a
failure). -/

structure TaskSpec where
  relativePath : String
  hasChangedFlag : Option Bool
  cacheChanged : Bool
  uploadOk : Bool
deriving Repr, DecidableEq

/-- The module state that `handleFileUpload` touches: the
already-uploaded set and the progress counters (`totalFiles` from
`initProgressTracker(filesToUpload.length)`). -/
structure RunState where
  uploadedFiles : List String
  completedFiles : Nat
  failedFiles : Nat
  totalFiles : Nat
deriving Repr, DecidableEq

/-- `recordProgressSuccess`. -/
def recordProgressSuccessRS (s : RunState) : RunState :=
  { s with completedFiles := s.completedFiles + 1 }

/-- `recordProgressFailure`. -/
def recordProgressFailureRS (s : RunState) : RunState :=
  { s with failedFiles := s.failedFiles + 1 }

/-- One execution of `handleFileUpload`: an already-uploaded path is
skipped without recording; a task known or found unchanged records a
success without uploading; otherwise the upload result records a
success (also marking the path uploaded) or a failure. -/
def handleFileUpload (t : TaskSpec) (s : RunState) : RunState :=
  if t.relativePath ∈ s.uploadedFiles then s
  else if t.hasChangedFlag = some false then recordProgressSuccessRS s
  else if t.hasChangedFlag = none && !t.cacheChanged then
    recordProgressSuccessRS s
  else if t.uploadOk then
    recordProgressSuccessRS
      { s with uploadedFiles := t.relativePath :: s.uploadedFiles }
  else recordProgressFailureRS s

/-- The state at the start of a batch: `startUpload` clears
`_uploadedFiles` and calls `initProgressTracker(filesToUpload.length)`,
zeroing both counters. -/
def initRunState (total : Nat) : RunState :=
  { uploadedFiles := [], completedFiles := 0, failedFiles := 0,
    totalFiles := total }

/-- Process a batch of tasks in dispatch order; the queue awaits every
handler, so at `onComplete` the fold has consumed the whole batch. -/
def runUpload (tasks : List TaskSpec) (s : RunState) : RunState :=
  tasks.foldl (fun s t => handleFileUpload t s) s

/-! ## Uploader target-directory normalization (`initUploader`) -/

/-- The effect of the JavaScript global regex replace
`replace(/^\/+|\/+/g, "")`: scanning left to right, every maximal run
of slashes matches the second alternative (the first only adds the
anchored case) and is deleted. -/
def stripSlashRuns : List Char → List Char
  | [] => []
  | c :: cs =>
    if c = '/' then stripSlashRuns (cs.dropWhile (· = '/'))
    else c :: stripSlashRuns cs
termination_by l => l.length
decreasing_by
  · exact Nat.lt_succ_of_le (List.dropWhile_sublist _).length_le
  · exact Nat.lt_succ_self _

/-- JavaScript `String.prototype.trim`: drop whitespace from both
ends. -/
def trimChars (l : List Char) : List Char :=
  ((l.dropWhile Char.isWhitespace).reverse.dropWhile Char.isWhitespace).reverse

/-- `initUploader`'s stored target directory:
`targetDir.trim().replace(/^\/+|\/+/g, "")`. -/
def initUploaderTargetDir (targetDir : String) : String :=
  String.mk (stripSlashRuns (trimChars targetDir.toList))

/-! ## Restore filter (`downloader.ts` / `restore-manager.ts`) -/

/-- A local filesystem object as `fs.stat` reports it, carrying its
bytes; `stats.size` is the byte count. -/
structure LocalFile where
  isRegularFile : Bool
  content : List Nat
deriving Repr, DecidableEq

/-- `isFileUpToDate(localPath, remoteSize)`: `fs.stat` throws when
nothing exists at the path (`none`), caught as `false`; otherwise the
object must be a regular file whose size equals `remoteSize`. The bytes
themselves are never read. -/
def isFileUpToDate (localEntry : Option LocalFile) (remoteSize : Nat) : Bool :=
  match localEntry with
  | none => false
  | some f => f.isRegularFile && f.content.length = remoteSize

structure RestoreFileInfo where
  remotePath : String
  localPath : String
  size : Nat
  name : String
deriving Repr, DecidableEq

/-- `filterFilesToDownload`: with `force` everything is downloaded;
otherwise a file is kept exactly when `isFileUpToDate` on its local
path and remote size is false. -/
def filterFilesToDownload (force : Bool) (localFS : String → Option LocalFile)
    (files : List RestoreFileInfo) : List RestoreFileInfo :=
  if force then files
  else files.filter (fun f => !(isFileUpToDate (localFS f.localPath) f.size))

/-! ## Theorems -/

/-- C8: `shouldUseResumable(size)` is true iff `size` is strictly
greater than `100 * 1024 * 1024` bytes; in particular it is false at
the threshold and true one byte above it. -/
theorem shouldUseResumable_spec (size : Nat) :
    (shouldUseResumable size = true ↔ 100 * 1024 * 1024 < size) ∧
    shouldUseResumable (100 * 1024 * 1024) = false ∧
    shouldUseResumable (100 * 1024 * 1024 + 1) = true := by
  refine ⟨?_, by decide, by decide⟩
  simp [shouldUseResumable]

/-- C2 counterexample: a streamed upload whose process exits `0` with
combined output `upload failed` — the output contains the
case-insensitive substring `failed`, yet the operation returns a
successful result, because the streamed paths test only for `error`. -/
theorem remoteCliFailed_counterexample :
    containsLower ("upload failed" ++ "") "failed" = true ∧
    internxtUploadFileWithProgressPure 0 "upload failed" "" = true := by
  constructor <;> decide

/-- C2 amended: exact output classification of the five remote-CLI
operations. Plain upload and download examine `stdout || stderr` (not
the concatenation) and fail on case-insensitive `error` or `failed`;
streamed upload and download examine the combined output but only for
`error` (never `failed`) and additionally require exit code `0`;
`CreateFolder` fails only on `error` without `already exists`. -/
theorem remoteCliOutputClassification (exitOk : Bool) (code : Int)
    (stdout stderr errMsg : String) :
    (internxtUploadFilePure exitOk stdout stderr = true ↔
      exitOk = true ∧ containsLower (jsOr stdout stderr) "error" = false ∧
        containsLower (jsOr stdout stderr) "failed" = false) ∧
    (internxtDownloadFilePure exitOk stdout stderr =
      internxtUploadFilePure exitOk stdout stderr) ∧
    (internxtUploadFileWithProgressPure code stdout stderr = true ↔
      code = 0 ∧ containsLower (stdout ++ stderr) "error" = false) ∧
    (internxtDownloadFileWithProgressPure code stdout stderr =
      internxtUploadFileWithProgressPure code stdout stderr) ∧
    (internxtCreateFolderPure exitOk stdout stderr errMsg = true ↔
      ((exitOk = true ∧ (containsLower (jsOr stdout stderr) "error" = false ∨
          containsLower (jsOr stdout stderr) "already exists" = true)) ∨
        (exitOk = false ∧ containsLower errMsg "already exists" = true))) := by
  refine ⟨?_, rfl, ?_, rfl, ?_⟩
  · cases exitOk <;>
      simp [internxtUploadFilePure, Bool.or_eq_true, not_or]
  · simp [internxtUploadFileWithProgressPure, Bool.and_eq_true, decide_eq_true_iff]
  · cases exitOk <;>
      simp [internxtCreateFolderPure, Bool.and_eq_true, not_and_or]

/-- C3 counterexample: with the default retry policy and a streamed
upload that fails on every attempt, `uploadLargeFile` makes three
attempts but sleeps only two backoff delays — 2000 ms and 4000 ms; the
delay list is not 2 s/4 s/8 s, and no 8 s delay ever occurs. -/
theorem uploadRetryDelays_counterexample :
    (uploadLargeFileRetry (fun _ => false) none).delays = [2000, 4000] ∧
    (uploadLargeFileRetry (fun _ => false) none).delays ≠ [2000, 4000, 8000] ∧
    ¬ 8000 ∈ (uploadLargeFileRetry (fun _ => false) none).delays ∧
    (uploadLargeFileRetry (fun _ => false) none).attempts = 3 ∧
    (uploadLargeFileRetry (fun _ => false) none).persisted = true := by
  refine ⟨by decide, by decide, by decide, by decide, by decide⟩

/-- C3 amended: when every streamed attempt fails under the default
policy, `uploadLargeFile` performs three attempts separated by the two
backoff delays `min(1000·2^k, 10000)` for `k = 1, 2` — 2 s then 4 s —
and then persists the state file; no third (8 s) delay is slept because
the third failure exhausts the retries. -/
theorem uploadRetryDelays_amended (results : Nat → Bool)
    (hfail : ∀ k, results k = false) :
    (uploadLargeFileRetry results none).attempts = 3 ∧
    (uploadLargeFileRetry results none).delays =
      [retryDelay none 1, retryDelay none 2] ∧
    retryDelay none 1 = 2000 ∧ retryDelay none 2 = 4000 ∧
    (uploadLargeFileRetry results none).persisted = true ∧
    (uploadLargeFileRetry results none).success = false := by
  have h0 := hfail 0
  have h1 := hfail 1
  have h2 := hfail 2
  refine ⟨?_, ?_, by decide, by decide, ?_, ?_⟩ <;>
    simp [uploadLargeFileRetry, retryLoopAux, h0, h1, h2]

/-- Witness for C3 amended at the all-failing attempt function. -/
theorem uploadRetryDelays_amended_witness :
    (uploadLargeFileRetry (fun _ => false) none).attempts = 3 ∧
    (uploadLargeFileRetry (fun _ => false) none).delays =
      [retryDelay none 1, retryDelay none 2] ∧
    retryDelay none 1 = 2000 ∧ retryDelay none 2 = 4000 ∧
    (uploadLargeFileRetry (fun _ => false) none).persisted = true ∧
    (uploadLargeFileRetry (fun _ => false) none).success = false :=
  uploadRetryDelays_amended (fun _ => false) (fun _ => rfl)

/-- Dropping the leading slashes of a character list does not change
its slash-free residue. -/
theorem filter_dropWhile_slash (cs : List Char) :
    (cs.dropWhile (fun c => c = '/')).filter (fun c => c != '/') =
      cs.filter (fun c => c != '/') := by
  induction cs with
  | nil => rfl
  | cons c cs ih =>
    by_cases hc : c = '/'
    · subst hc
      simpa [List.dropWhile_cons, List.filter_cons] using ih
    · simp [List.dropWhile_cons, List.filter_cons, hc]

/-- The global `/^\/+|\/+/g`-replace deletes every slash. -/
theorem stripSlashRuns_eq_filter (l : List Char) :
    stripSlashRuns l = l.filter (fun c => c != '/') := by
  have H : ∀ n, ∀ l : List Char, l.length ≤ n →
      stripSlashRuns l = l.filter (fun c => c != '/') := by
    intro n
    induction n with
    | zero =>
      intro l hl
      have : l = [] := List.length_eq_zero.mp (Nat.le_zero.mp hl)
      subst this
      simp [stripSlashRuns]
    | succ n ih =>
      intro l hl
      match l with
      | [] => simp [stripSlashRuns]
      | c :: cs =>
        have hcs : cs.length ≤ n := Nat.le_of_succ_le_succ hl
        by_cases hc : c = '/'
        · subst hc
          rw [stripSlashRuns, if_pos rfl,
            ih _ (le_trans (List.dropWhile_sublist _).length_le hcs),
            filter_dropWhile_slash, List.filter_cons]
          simp
        · rw [stripSlashRuns, if_neg hc, ih _ hcs, List.filter_cons]
          simp [hc]
  exact H l.length l le_rfl

/-- C9: `initUploader`'s target normalization deletes every slash of
the (trimmed) target, not only leading and trailing runs: a trimmed
target maps to itself with all slashes removed, `Backups/X` flattens to
`BackupsX`, and the default target `/` becomes the empty string. -/
theorem initUploaderTargetDir_spec :
    (∀ s : String, trimChars s.toList = s.toList →
      initUploaderTargetDir s =
        String.mk (s.toList.filter (fun c => c != '/'))) ∧
    initUploaderTargetDir "Backups/X" = "BackupsX" ∧
    initUploaderTargetDir "/" = "" := by
  refine ⟨?_, ?_, ?_⟩
  · intro s hs
    rw [initUploaderTargetDir, hs, stripSlashRuns_eq_filter]
  · rw [initUploaderTargetDir, stripSlashRuns_eq_filter]
    decide
  · rw [initUploaderTargetDir, stripSlashRuns_eq_filter]
    decide

/-- Witness for C9 at the multi-level target `Backups/X`. -/
theorem initUploaderTargetDir_spec_witness :
    initUploaderTargetDir "Backups/X" =
      String.mk ("Backups/X".toList.filter (fun c => c != '/')) :=
  initUploaderTargetDir_spec.1 "Backups/X" (by decide)

/-- C10: `isFileUpToDate` is true exactly when a regular file exists
locally with byte length equal to the remote size; it is oblivious to
the bytes themselves, so a non-`force` restore drops from the download
list every file whose local size matches the remote entry. -/
theorem isFileUpToDate_spec :
    (∀ (entry : Option LocalFile) (remoteSize : Nat),
      isFileUpToDate entry remoteSize = true ↔
        ∃ f, entry = some f ∧ f.isRegularFile = true ∧
          f.content.length = remoteSize) ∧
    (∀ (f g : LocalFile) (remoteSize : Nat),
      f.isRegularFile = g.isRegularFile →
      f.content.length = g.content.length →
      isFileUpToDate (some f) remoteSize = isFileUpToDate (some g) remoteSize) ∧
    (∀ (localFS : String → Option LocalFile) (files : List RestoreFileInfo)
      (f : RestoreFileInfo), f ∈ files →
      isFileUpToDate (localFS f.localPath) f.size = true →
      f ∉ filterFilesToDownload false localFS files) := by
  refine ⟨?_, ?_, ?_⟩
  · intro entry remoteSize
    cases entry <;> simp [isFileUpToDate]
  · intro f g remoteSize hreg hlen
    simp [isFileUpToDate, hreg, hlen]
  · intro localFS files f _ hupd
    simp [filterFilesToDownload, List.mem_filter, hupd]

/-- Witness for C10: a matching-size local file is skipped by the
restore filter. -/
theorem isFileUpToDate_spec_witness :
    (⟨"/b/a.txt", "/r/a.txt", 3, "a.txt"⟩ : RestoreFileInfo) ∉
      filterFilesToDownload false
        (fun _ => some { isRegularFile := true, content := [10, 20, 30] })
        [⟨"/b/a.txt", "/r/a.txt", 3, "a.txt"⟩] :=
  isFileUpToDate_spec.2.2 _ _ _ (by simp) (by decide)

/-- C1 counterexample: one task, concurrency one, a completion callback
installed by `startFileQueue`. After the single handler completes (its
continuation runs `processNextFile`, which fires the callback) and the
500 ms polling interval ticks once (pending and active are empty, so it
fires the callback again before clearing itself), the callback has been
invoked twice — not exactly once. -/
theorem fileQueueOnComplete_counterexample :
    (qrun (startFileQueue true
        { pending := 1, active := 0, maxConcurrency := 1,
          callbackSet := false, intervalActive := false, fired := 0 })
      [QEvent.complete, QEvent.tick]).fired = 2 := by
  decide

theorem qrun_append (s : QState) (l1 l2 : List QEvent) :
    qrun s (l1 ++ l2) = qrun (qrun s l1) l2 := by
  induction l1 generalizing s with
  | nil => rfl
  | cons e es ih => simp [qrun, ih]

/-- Each call of the `startFileQueue` launch loop finds a pending file
and room in the active set, so it launches one handler. -/
theorem processNextFileIter_launch (k : Nat) :
    ∀ s : QState, k ≤ s.pending → s.active + k ≤ s.maxConcurrency →
    processNextFileIter k s =
      { s with pending := s.pending - k, active := s.active + k } := by
  induction k with
  | zero => intro s _ _; simp [processNextFileIter]
  | succ k ih =>
    intro s hk hm
    obtain ⟨p, a, m, cb, iv, f⟩ := s
    simp only [QState.mk.injEq] at *
    have hp : ¬ p = 0 := by omega
    have hact : a < m := by omega
    rw [processNextFileIter, processNextFile]
    simp only [if_neg hp, if_pos hact]
    rw [ih _ (by simpa using Nat.le_sub_one_of_lt (by omega : k < p))
      (by simp; omega)]
    simp
    omega

/-- Draining the queue: starting from a state whose callback is set and
whose active count is within the bound (and positive while work
remains), the run of all remaining handler completions empties the
queue and fires the callback exactly once (via the final
`processNextFile`). -/
theorem qrun_completes (k : Nat) :
    ∀ s : QState, s.callbackSet = true → s.active ≤ s.maxConcurrency →
    s.pending + s.active = k → (0 < k → 1 ≤ s.active) →
    qrun s (List.replicate k QEvent.complete) =
      { s with
        pending := 0
        active := 0
        fired := s.fired + (if 0 < k then 1 else 0) } := by
  induction k with
  | zero =>
    intro s hcb hm hsum _
    obtain ⟨p, a, m, cb, iv, f⟩ := s
    simp only at hsum
    simp [List.replicate, qrun]
    omega
  | succ k ih =>
    intro s hcb hm hsum hpos
    obtain ⟨p, a, m, cb, iv, f⟩ := s
    simp only at hcb hm hsum hpos
    subst hcb
    have ha : 1 ≤ a := hpos (Nat.succ_pos k)
    rw [List.replicate_succ, qrun]
    show qrun (processNextFile ⟨p, a - 1, m, true, iv, f⟩) _ = _
    by_cases hp : p = 0
    · subst hp
      have hak : a = k + 1 := by omega
      by_cases hk : k = 0
      · subst hk
        have ha1 : a = 1 := by omega
        subst ha1
        simp [processNextFile, qrun]
      · have ha1 : (a - 1 = 0) = False := eq_false (by omega)
        rw [show processNextFile ⟨0, a - 1, m, true, iv, f⟩ =
            ⟨0, a - 1, m, true, iv, f⟩ from by simp [processNextFile, ha1]]
        rw [ih ⟨0, a - 1, m, true, iv, f⟩ rfl
          (by show a - 1 ≤ m; omega)
          (by show 0 + (a - 1) = k; omega)
          (by intro hk0; show 1 ≤ a - 1; omega)]
        have hk1 : (0 < k) = True := eq_true (by omega)
        simp [hk1]
    · have hp0 : (p = 0) = False := eq_false hp
      have hlt : (a - 1 < m) = True := eq_true (by omega)
      rw [show processNextFile ⟨p, a - 1, m, true, iv, f⟩ =
          ⟨p - 1, a - 1 + 1, m, true, iv, f⟩ from by
        simp [processNextFile, hp0, hlt]]
      rw [ih ⟨p - 1, a - 1 + 1, m, true, iv, f⟩ rfl
        (by show a - 1 + 1 ≤ m; omega)
        (by show p - 1 + (a - 1 + 1) = k; omega)
        (by intro hk0; show 1 ≤ a - 1 + 1; omega)]
      have hk1 : (0 < k) = True := eq_true (by omega)
      simp [hk1]

/-- `startFileQueue` on a freshly initialized queue of `n` files:
launch `min(maxConcurrency, n)` handlers and install the polling
interval. -/
theorem startFileQueue_fresh (n m : Nat) :
    startFileQueue true ⟨n, 0, m, false, false, 0⟩ =
      ⟨n - min m n, min m n, m, true, true, 0⟩ := by
  rw [startFileQueue]
  show (let s2 := processNextFileIter (min m n) ⟨n, 0, m, true, false, 0⟩
    if s2.callbackSet then { s2 with intervalActive := true } else s2) = _
  rw [processNextFileIter_launch (min m n) ⟨n, 0, m, true, false, 0⟩
    (by simpa using min_le_right m n) (by simpa using min_le_left m n)]
  simp

/-- C1 amended: every invocation of the completion callback happens at
a point where the pending list and the active set are both empty (so
only after the last handler's completion has been observed) — but the
callback is not invoked exactly once: for a nonempty batch the full run
(all `n` handler completions followed by the next interval tick)
invokes it twice, once from the last completion's `processNextFile` and
once more from the 500 ms polling interval. -/
theorem fileQueueOnComplete_amended :
    (∀ (s : QState) (e : QEvent), (qstep s e).fired ≠ s.fired →
      (qstep s e).pending = 0 ∧ (qstep s e).active = 0) ∧
    (∀ n m : Nat, 1 ≤ n → 1 ≤ m →
      qrun (startFileQueue true ⟨n, 0, m, false, false, 0⟩)
          (List.replicate n QEvent.complete ++ [QEvent.tick]) =
        ⟨0, 0, m, true, false, 2⟩) := by
  constructor
  · intro s e h
    obtain ⟨p, a, m, cb, iv, f⟩ := s
    cases e
    · simp only [qstep, processNextFile] at h ⊢
      split_ifs at h ⊢ with h1 h2 h3 <;> simp_all
    · simp only [qstep] at h ⊢
      split_ifs at h ⊢ with h1 h2 <;> simp_all
  · intro n m hn hm
    rw [startFileQueue_fresh, qrun_append,
      qrun_completes n ⟨n - min m n, min m n, m, true, true, 0⟩ rfl
        (by show min m n ≤ m; omega)
        (by show n - min m n + min m n = n; omega)
        (by intro _; show 1 ≤ min m n; omega)]
    have hfe : (0 < n) = True := eq_true (by omega)
    simp [hfe, qrun, qstep]

/-- Witness for C1 amended at a single task with concurrency one. -/
theorem fileQueueOnComplete_amended_witness :
    qrun (startFileQueue true ⟨1, 0, 1, false, false, 0⟩)
        (List.replicate 1 QEvent.complete ++ [QEvent.tick]) =
      ⟨0, 0, 1, true, false, 2⟩ :=
  fileQueueOnComplete_amended.2 1 1 (by decide) (by decide)

/-- For `maxRetries = 3` the retry loop of `uploadLargeFile` either
succeeds or exhausts its retries with the state persisted; the natural
`while`-exit without persisting is unreachable. -/
theorem uploadLargeFileRetry_exhaust (results : Nat → Bool)
    (d : Option Nat) :
    (uploadLargeFileRetry results d).success = true ∨
      ((uploadLargeFileRetry results d).success = false ∧
        (uploadLargeFileRetry results d).persisted = true) := by
  cases h0 : results 0 <;> cases h1 : results 1 <;> cases h2 : results 2 <;>
    simp [uploadLargeFileRetry, retryLoopAux, h0, h1, h2]

/-- C4: for a super-threshold file, a successful `uploadLargeFile`
leaves no upload-state file for the path and a subsequent
`getResumableProgress` reports `0`; a failed `uploadLargeFile` (its
three retries exhausted) leaves a state file in place. -/
theorem uploadLargeFileState_spec (fileSize chunkSize : Nat)
    (checksum filePath remotePath : String) (now : Nat)
    (results : Nat → Bool) (delayOpt : Option Nat) (smallOk : Bool)
    (world : Option ChunkedUploadState)
    (hbig : shouldUseResumable fileSize = true) :
    ((uploadLargeFileWorld fileSize chunkSize checksum filePath remotePath now
        results delayOpt smallOk world).1 = true →
      (uploadLargeFileWorld fileSize chunkSize checksum filePath remotePath now
        results delayOpt smallOk world).2 = none ∧
      (getResumableProgressWorld checksum
        (uploadLargeFileWorld fileSize chunkSize checksum filePath remotePath
          now results delayOpt smallOk world).2).1 = 0) ∧
    ((uploadLargeFileWorld fileSize chunkSize checksum filePath remotePath now
        results delayOpt smallOk world).1 = false →
      (uploadLargeFileWorld fileSize chunkSize checksum filePath remotePath now
        results delayOpt smallOk world).2.isSome = true) := by
  rw [uploadLargeFileWorld]
  rw [if_neg (by simp [hbig])]
  rcases uploadLargeFileRetry_exhaust results delayOpt with hs | ⟨hs, hp⟩
  · simp only [hs, if_pos rfl]
    exact ⟨fun _ => ⟨rfl, rfl⟩, fun h => by simp at h⟩
  · simp only [hs, hp]
    simp

/-- Witness for C4 at a file one byte over the threshold whose three
attempts all fail: the state file is present afterwards. -/
theorem uploadLargeFileState_spec_witness :
    (uploadLargeFileWorld (100 * 1024 * 1024 + 1) (50 * 1024 * 1024) "c" "f"
      "r" 0 (fun _ => false) none true none).2.isSome = true :=
  (uploadLargeFileState_spec (100 * 1024 * 1024 + 1) (50 * 1024 * 1024) "c"
    "f" "r" 0 (fun _ => false) none true none (by decide)).2 (by decide)

theorem mapGet_mapSet_self (k v : String) (m : List (String × String)) :
    mapGet k (mapSet k v m) = some v := by
  induction m with
  | nil => simp [mapSet, mapGet]
  | cons e rest ih =>
    by_cases hk : e.1 = k
    · simp [mapSet, mapGet, hk]
    · obtain ⟨k', v'⟩ := e
      simp only at hk
      simp [mapSet, mapGet, hk, ih]

/-- C6: `hashCacheHasChanged` under a hashing oracle that yields the
MD5 digest of the file's current bytes (`none` models a read or hash
error). With no cache entry it stores the digest, persists and answers
true; with an equal entry it answers false and leaves the world
untouched; with a differing entry it stores, persists and answers true;
on an error it answers true. (`h ≠ ""` records that a real MD5 hex
digest is nonempty, which keeps JavaScript's falsy check on the stored
digest equivalent to a presence check.) -/
theorem hashCacheHasChanged_spec (md5 : String → Option String)
    (p : String) (w : HashCacheWorld) :
    (md5 (normalizePath p) = none → hashCacheHasChanged md5 p w = (true, w)) ∧
    (∀ h, md5 (normalizePath p) = some h → h ≠ "" →
      (mapGet (normalizePath p) w.cache = none →
        (hashCacheHasChanged md5 p w).1 = true ∧
        (hashCacheHasChanged md5 p w).2.cache =
          mapSet (normalizePath p) h w.cache ∧
        (hashCacheHasChanged md5 p w).2.disk =
          (hashCacheHasChanged md5 p w).2.cache ∧
        mapGet (normalizePath p) (hashCacheHasChanged md5 p w).2.cache =
          some h) ∧
      (mapGet (normalizePath p) w.cache = some h →
        hashCacheHasChanged md5 p w = (false, w)) ∧
      (∀ h', mapGet (normalizePath p) w.cache = some h' → h' ≠ h →
        (hashCacheHasChanged md5 p w).1 = true ∧
        (hashCacheHasChanged md5 p w).2.cache =
          mapSet (normalizePath p) h w.cache ∧
        (hashCacheHasChanged md5 p w).2.disk =
          (hashCacheHasChanged md5 p w).2.cache ∧
        mapGet (normalizePath p) (hashCacheHasChanged md5 p w).2.cache =
          some h)) := by
  constructor
  · intro hmd
    rw [hashCacheHasChanged, hmd]
  · intro h hmd hne
    refine ⟨?_, ?_, ?_⟩
    · intro hget
      rw [hashCacheHasChanged, hmd, hget]
      exact ⟨rfl, rfl, rfl, mapGet_mapSet_self _ _ _⟩
    · intro hget
      rw [hashCacheHasChanged, hmd, hget]
      simp [hne]
    · intro h' hget hne'
      simp only [hashCacheHasChanged, hmd, hget]
      by_cases he : h' = ""
      · subst he
        simp only [if_pos rfl]
        exact ⟨rfl, rfl, rfl, mapGet_mapSet_self _ _ _⟩
      · rw [if_neg he, if_pos (Ne.symm hne')]
        exact ⟨rfl, rfl, rfl, mapGet_mapSet_self _ _ _⟩

/-- Witness for C6: first sight of a file stores and persists its
digest and reports a change. -/
theorem hashCacheHasChanged_spec_witness :
    (hashCacheHasChanged (fun _ => some "abc") "a.txt"
      { cache := [], disk := [] }).1 = true ∧
    (hashCacheHasChanged (fun _ => some "abc") "a.txt"
      { cache := [], disk := [] }).2.cache =
      mapSet (normalizePath "a.txt") "abc" [] ∧
    (hashCacheHasChanged (fun _ => some "abc") "a.txt"
      { cache := [], disk := [] }).2.disk =
      (hashCacheHasChanged (fun _ => some "abc") "a.txt"
        { cache := [], disk := [] }).2.cache ∧
    mapGet (normalizePath "a.txt")
      (hashCacheHasChanged (fun _ => some "abc") "a.txt"
        { cache := [], disk := [] }).2.cache = some "abc" :=
  ((hashCacheHasChanged_spec (fun _ => some "abc") "a.txt"
    { cache := [], disk := [] }).2 "abc" rfl (by decide)).1 rfl

/-- One `handleFileUpload` that is not skipped as already uploaded
records exactly one outcome, can add only its own path to the uploaded
set, and leaves `totalFiles` alone. -/
theorem handleFileUpload_not_skipped (t : TaskSpec) (s : RunState)
    (h : t.relativePath ∉ s.uploadedFiles) :
    (handleFileUpload t s).completedFiles + (handleFileUpload t s).failedFiles
      = s.completedFiles + s.failedFiles + 1 ∧
    (∀ q, q ∈ (handleFileUpload t s).uploadedFiles →
      q = t.relativePath ∨ q ∈ s.uploadedFiles) := by
  rw [handleFileUpload, if_neg h]
  split_ifs <;> refine ⟨?_, fun q hq => ?_⟩ <;>
    first
      | (simp only [recordProgressSuccessRS, recordProgressFailureRS]; omega)
      | (simp only [recordProgressSuccessRS, recordProgressFailureRS,
          List.mem_cons] at hq ⊢; tauto)
      | exact Or.inr hq

/-- Any `handleFileUpload` moves the counters up by at most one and
never down, and preserves `totalFiles`. -/
theorem handleFileUpload_step (t : TaskSpec) (s : RunState) :
    s.completedFiles ≤ (handleFileUpload t s).completedFiles ∧
    s.failedFiles ≤ (handleFileUpload t s).failedFiles ∧
    (handleFileUpload t s).completedFiles + (handleFileUpload t s).failedFiles
      ≤ s.completedFiles + s.failedFiles + 1 ∧
    (handleFileUpload t s).totalFiles = s.totalFiles := by
  rw [handleFileUpload]
  split_ifs <;> refine ⟨?_, ?_, ?_, ?_⟩ <;>
    first
      | rfl
      | omega
      | (simp only [recordProgressSuccessRS, recordProgressFailureRS]; omega)
      | (simp only [recordProgressSuccessRS, recordProgressFailureRS])

theorem runUpload_mono (ts : List TaskSpec) (s : RunState) :
    s.completedFiles ≤ (runUpload ts s).completedFiles ∧
    s.failedFiles ≤ (runUpload ts s).failedFiles ∧
    (runUpload ts s).completedFiles + (runUpload ts s).failedFiles
      ≤ s.completedFiles + s.failedFiles + ts.length ∧
    (runUpload ts s).totalFiles = s.totalFiles := by
  induction ts generalizing s with
  | nil => simp [runUpload]
  | cons t ts ih =>
    have hstep := handleFileUpload_step t s
    have htail := ih (handleFileUpload t s)
    rw [runUpload] at htail ⊢
    simp only [List.foldl_cons, List.length_cons]
    refine ⟨le_trans hstep.1 htail.1, le_trans hstep.2.1 htail.2.1, ?_, ?_⟩
    · omega
    · rw [htail.2.2.2, hstep.2.2.2]

/-- Processing a batch of pairwise-distinct paths, none already
uploaded, records exactly one outcome per task. -/
theorem runUpload_exact (ts : List TaskSpec) :
    ∀ s : RunState, (ts.map TaskSpec.relativePath).Nodup →
    (∀ t ∈ ts, t.relativePath ∉ s.uploadedFiles) →
    ((runUpload ts s).completedFiles + (runUpload ts s).failedFiles
      = s.completedFiles + s.failedFiles + ts.length) ∧
    (∀ q, q ∈ (runUpload ts s).uploadedFiles →
      q ∈ s.uploadedFiles ∨ q ∈ ts.map TaskSpec.relativePath) := by
  induction ts with
  | nil => intro s _ _; simp [runUpload]
  | cons t ts ih =>
    intro s hnd hnotin
    have hhead : t.relativePath ∉ s.uploadedFiles := hnotin t (by simp)
    have hrec := handleFileUpload_not_skipped t s hhead
    have hnd' : (ts.map TaskSpec.relativePath).Nodup := by
      simpa using hnd.of_cons
    have hnotin' : ∀ u ∈ ts, u.relativePath ∉ (handleFileUpload t s).uploadedFiles := by
      intro u hu hmem
      rcases hrec.2 _ hmem with heq | hmem'
      · have : t.relativePath ∈ ts.map TaskSpec.relativePath := by
          exact heq ▸ List.mem_map_of_mem TaskSpec.relativePath hu
        simp only [List.map_cons, List.nodup_cons] at hnd
        exact hnd.1 this
      · exact hnotin u (by simp [hu]) hmem'
    have htail := ih (handleFileUpload t s) hnd' hnotin'
    rw [runUpload] at htail ⊢
    simp only [List.foldl_cons, List.length_cons]
    constructor
    · have h1 := hrec.1
      have h2 := htail.1
      omega
    · intro q hq
      rcases htail.2 q hq with hmem | hmem
      · rcases hrec.2 q hmem with heq | hmem'
        · right; simp [heq]
        · left; exact hmem'
      · right; simp [hmem]

/-- C5: for a batch of tasks with pairwise-distinct relative paths, the
progress counters are monotone along the run, `succeeded + failed`
never exceeds the tracker's `totalFiles` (the batch size), and once the
whole batch has been handled — the point at which the queue's
`onComplete` fires — `succeeded + failed` equals the number of tasks. -/
theorem progressCounters_spec (tasks : List TaskSpec)
    (hnd : (tasks.map TaskSpec.relativePath).Nodup) :
    (∀ i j, i ≤ j →
      (runUpload (tasks.take i) (initRunState tasks.length)).completedFiles ≤
        (runUpload (tasks.take j) (initRunState tasks.length)).completedFiles ∧
      (runUpload (tasks.take i) (initRunState tasks.length)).failedFiles ≤
        (runUpload (tasks.take j) (initRunState tasks.length)).failedFiles) ∧
    (∀ k,
      (runUpload (tasks.take k) (initRunState tasks.length)).completedFiles +
        (runUpload (tasks.take k) (initRunState tasks.length)).failedFiles ≤
      (runUpload (tasks.take k) (initRunState tasks.length)).totalFiles) ∧
    ((runUpload tasks (initRunState tasks.length)).completedFiles +
      (runUpload tasks (initRunState tasks.length)).failedFiles
        = tasks.length) := by
  refine ⟨?_, ?_, ?_⟩
  · intro i j hij
    have htake : (tasks.take j).take i = tasks.take i := by
      rw [List.take_take, min_eq_left hij]
    have : runUpload (tasks.take j) (initRunState tasks.length) =
        runUpload ((tasks.take j).drop i)
          (runUpload (tasks.take i) (initRunState tasks.length)) := by
      conv_lhs =>
        rw [← List.take_append_drop i (tasks.take j), htake]
      rw [runUpload, runUpload, runUpload, List.foldl_append]
    rw [this]
    have hm := runUpload_mono ((tasks.take j).drop i)
      (runUpload (tasks.take i) (initRunState tasks.length))
    exact ⟨hm.1, hm.2.1⟩
  · intro k
    have hm := runUpload_mono (tasks.take k) (initRunState tasks.length)
    have hlen : (tasks.take k).length ≤ tasks.length := by
      simpa using List.length_take_le k tasks
    have htot : (runUpload (tasks.take k) (initRunState tasks.length)).totalFiles
        = tasks.length := hm.2.2.2
    rw [htot]
    have hb := hm.2.2.1
    have hz1 : (initRunState tasks.length).completedFiles = 0 := rfl
    have hz2 : (initRunState tasks.length).failedFiles = 0 := rfl
    omega
  · have := (runUpload_exact tasks (initRunState tasks.length) hnd
      (by intro t _ hmem; simp [initRunState] at hmem)).1
    simpa [initRunState] using this

/-- Witness for C5 at a two-task batch with one success and one
failure. -/
theorem progressCounters_spec_witness :
    (runUpload
      [{ relativePath := "a", hasChangedFlag := some true,
         cacheChanged := true, uploadOk := true },
       { relativePath := "b", hasChangedFlag := some true,
         cacheChanged := true, uploadOk := false }]
      (initRunState 2)).completedFiles +
    (runUpload
      [{ relativePath := "a", hasChangedFlag := some true,
         cacheChanged := true, uploadOk := true },
       { relativePath := "b", hasChangedFlag := some true,
         cacheChanged := true, uploadOk := false }]
      (initRunState 2)).failedFiles = 2 :=
  (progressCounters_spec
    [{ relativePath := "a", hasChangedFlag := some true,
       cacheChanged := true, uploadOk := true },
     { relativePath := "b", hasChangedFlag := some true,
       cacheChanged := true, uploadOk := false }] (by decide)).2.2

theorem sizeOf_rest_lt (e : String × FSTree)
    (rest : List (String × FSTree)) : sizeOf rest < sizeOf (e :: rest) := by
  simp

theorem sizeOf_sub_lt (name : String) (es' rest : List (String × FSTree)) :
    sizeOf es' < sizeOf ((name, FSTree.dir es') :: rest) := by
  simp
  omega

/-- Every record a scan of `es` emits lies strictly below the
accumulator: its relative path extends `rel` by some entry name of
`es`. -/
theorem scanEntries_shape (sp : List String) :
    ∀ (N : Nat) (abs rel : List String) (es : List (String × FSTree))
      (r : ScanRecord), sizeOf es ≤ N → r ∈ scanEntries sp abs rel es →
      ∃ n q, r.relativePath = rel ++ n :: q ∧ n ∈ es.map Prod.fst := by
  intro N
  induction N with
  | zero =>
    intro abs rel es r hN hr
    exfalso
    cases es <;> simp at hN
  | succ N ih =>
    intro abs rel es r hN hr
    match es with
    | [] =>
      unfold scanEntries at hr
      simp at hr
    | (name, t) :: rest =>
      have hrest : sizeOf rest ≤ N := by
        have := sizeOf_rest_lt (name, t) rest
        omega
      unfold scanEntries at hr
      split_ifs at hr with hskip
      · obtain ⟨n, q, hnq, hmem⟩ := ih abs rel rest r hrest hr
        exact ⟨n, q, hnq, by simp [hmem]⟩
      · match t with
        | .file sz =>
          rcases List.mem_cons.mp hr with hrr | hr2
          · exact ⟨name, [], by simp [hrr], by simp⟩
          · obtain ⟨n, q, hnq, hmem⟩ := ih abs rel rest r hrest hr2
            exact ⟨n, q, hnq, by simp [hmem]⟩
        | .dir es' =>
          rcases List.mem_append.mp hr with hr1 | hr2
          · have hsub : sizeOf es' ≤ N := by
              have := sizeOf_sub_lt name es' rest
              omega
            obtain ⟨m, q, hnq, _⟩ := ih (abs ++ [name]) (rel ++ [name]) es' r
              hsub hr1
            refine ⟨name, m :: q, ?_, by simp⟩
            rw [hnq]
            simp
          · obtain ⟨n, q, hnq, hmem⟩ := ih abs rel rest r hrest hr2
            exact ⟨n, q, hnq, by simp [hmem]⟩
        | .other =>
          obtain ⟨n, q, hnq, hmem⟩ := ih abs rel rest r hrest hr
          exact ⟨n, q, hnq, by simp [hmem]⟩

/-- A scan of `es` emits no record at a relative path whose first new
component is not an entry name of `es`. -/
theorem scanEntries_count_zero (sp abs rel : List String)
    (es : List (String × FSTree)) (n₀ : String) (p₀ : List String)
    (hn : n₀ ∉ es.map Prod.fst) :
    ((scanEntries sp abs rel es).map ScanRecord.relativePath).count
      (rel ++ n₀ :: p₀) = 0 := by
  rw [List.count_eq_zero]
  intro hmem
  rw [List.mem_map] at hmem
  obtain ⟨r, hr, hpath⟩ := hmem
  obtain ⟨n, q, hnq, hkey⟩ :=
    scanEntries_shape sp (sizeOf es) abs rel es r le_rfl hr
  rw [hnq] at hpath
  have hcons : n :: q = n₀ :: p₀ := List.append_cancel_left hpath
  have : n = n₀ := (List.cons.injEq _ _ _ _ ▸ hcons).1
  exact hn (this ▸ hkey)

/-- A subdirectory scan emits no record whose first new component
differs from the subdirectory's name. -/
theorem scanEntries_count_zero_sub (sp abs rel : List String) (name : String)
    (es' : List (String × FSTree)) (n₀ : String) (p₀ : List String)
    (hne : n₀ ≠ name) :
    ((scanEntries sp (abs ++ [name]) (rel ++ [name]) es').map
      ScanRecord.relativePath).count (rel ++ n₀ :: p₀) = 0 := by
  rw [List.count_eq_zero]
  intro hmem
  rw [List.mem_map] at hmem
  obtain ⟨r, hr, hpath⟩ := hmem
  obtain ⟨m, q, hnq, _⟩ :=
    scanEntries_shape sp (sizeOf es') (abs ++ [name]) (rel ++ [name]) es' r
      le_rfl hr
  rw [hnq] at hpath
  rw [List.append_assoc] at hpath
  have hcons : [name] ++ m :: q = n₀ :: p₀ := List.append_cancel_left hpath
  exact hne ((List.cons.injEq _ _ _ _ ▸ hcons).1).symm

/-- The head component of a `HasFile` path is an entry name. -/
theorem hasFile_shape {es : List (String × FSTree)} {p : List String}
    {sz : Nat} (h : HasFile es p sz) :
    ∃ n q, p = n :: q ∧ n ∈ es.map Prod.fst := by
  cases h with
  | file hmem => exact ⟨_, [], rfl, List.mem_map_of_mem Prod.fst hmem⟩
  | dir hmem hrec => exact ⟨_, _, rfl, List.mem_map_of_mem Prod.fst hmem⟩

/-- Core counting lemma for the scanner: scanning a well-formed entry
list that holds a non-excluded file at relative path `p` yields a
record list in which the path `rel ++ p` occurs exactly once. -/
theorem scanEntries_count_one (sp : List String) :
    ∀ (N : Nat) (abs rel : List String) (es : List (String × FSTree))
      (p : List String) (sz : Nat), sizeOf es ≤ N →
      (es.map Prod.fst).Nodup → (∀ e ∈ es, WFTree e.2) →
      HasFile es p sz →
      (∀ c ∈ p, startsWithDot c = false) →
      (∀ q, q ≠ [] → q <+: p → abs ++ q ≠ sp) →
      ((scanEntries sp abs rel es).map ScanRecord.relativePath).count
        (rel ++ p) = 1 := by
  intro N
  induction N with
  | zero =>
    intro abs rel es p sz hN _ _ _ _ _
    exfalso
    cases es <;> simp at hN
  | succ N ih =>
    intro abs rel es p sz hN hnd hwf hfile hdot hstate
    obtain ⟨n₀, p₀, rfl, hkey⟩ := hasFile_shape hfile
    match es with
    | [] => simp at hkey
    | (name, t) :: rest =>
      have hrest : sizeOf rest ≤ N := by
        have := sizeOf_rest_lt (name, t) rest
        omega
      have hndrest : (rest.map Prod.fst).Nodup := by
        simp only [List.map_cons, List.nodup_cons] at hnd
        exact hnd.2
      have hnamenotin : name ∉ rest.map Prod.fst := by
        simp only [List.map_cons, List.nodup_cons] at hnd
        exact hnd.1
      have hwfrest : ∀ e ∈ rest, WFTree e.2 := fun e he =>
        hwf e (List.mem_cons_of_mem _ he)
      unfold scanEntries
      split_ifs with hskip
      · have hmemrest : ∀ X : FSTree, (n₀, X) ∈ (name, t) :: rest →
            (n₀, X) ∈ rest := by
          intro X hmem
          rcases List.mem_cons.mp hmem with heq | hmm
          · exfalso
            rw [Prod.mk.injEq] at heq
            obtain ⟨h1, _⟩ := heq
            rcases (by simpa using hskip :
                startsWithDot name = true ∨ abs ++ [name] = sp) with
              hdotname | hsp
            · have hd := hdot n₀ (List.mem_cons_self _ _)
              rw [h1] at hd
              simp [hd] at hdotname
            · refine hstate [n₀] (by simp) ⟨p₀, rfl⟩ ?_
              rw [h1]
              exact hsp
          · exact hmm
        have hfile' : HasFile rest (n₀ :: p₀) sz := by
          cases hfile with
          | file hmem => exact HasFile.file (hmemrest _ hmem)
          | dir hmem hrec => exact HasFile.dir (hmemrest _ hmem) hrec
        exact ih abs rel rest _ sz hrest hndrest hwfrest hfile' hdot hstate
      · by_cases hn0 : n₀ = name
        · subst hn0
          cases hfile with
          | file hmem =>
            rcases List.mem_cons.mp hmem with heq | hmm
            · rw [Prod.mk.injEq] at heq
              obtain ⟨_, ht⟩ := heq
              rw [← ht]
              simp only [List.map_cons, List.count_cons,
                scanEntries_count_zero sp abs rel rest n₀ [] hnamenotin]
              simp
            · exact absurd (List.mem_map_of_mem Prod.fst hmm) hnamenotin
          | dir hmem hrec =>
            rename_i es'
            rcases List.mem_cons.mp hmem with heq | hmm
            · rw [Prod.mk.injEq] at heq
              obtain ⟨_, ht⟩ := heq
              rw [← ht]
              have hsubN : sizeOf es' ≤ N := by
                have := sizeOf_sub_lt n₀ es' rest
                rw [← ht] at hN
                omega
              cases hwf (n₀, FSTree.dir es')
                  (by rw [ht]; exact List.mem_cons_self _ _) with
              | dir hndsub hwfsub =>
                have hcount := ih (abs ++ [n₀]) (rel ++ [n₀]) es' p₀ sz hsubN
                  hndsub hwfsub hrec
                  (fun c hc => hdot c (List.mem_cons_of_mem _ hc))
                  (fun q hq hpre => by
                    obtain ⟨r, hr⟩ := hpre
                    have := hstate (n₀ :: q) (by simp) ⟨r, by simp [hr]⟩
                    simpa [List.append_assoc] using this)
                rw [List.map_append, List.count_append,
                  scanEntries_count_zero sp abs rel rest n₀ p₀ hnamenotin,
                  show rel ++ n₀ :: p₀ = (rel ++ [n₀]) ++ p₀ by simp,
                  hcount]
            · exact absurd (List.mem_map_of_mem Prod.fst hmm) hnamenotin
        · have hfile' : HasFile rest (n₀ :: p₀) sz := by
            cases hfile with
            | file hmem =>
              rcases List.mem_cons.mp hmem with heq | hmm
              · rw [Prod.mk.injEq] at heq
                exact absurd heq.1 hn0
              · exact HasFile.file hmm
            | dir hmem hrec =>
              rcases List.mem_cons.mp hmem with heq | hmm
              · rw [Prod.mk.injEq] at heq
                exact absurd heq.1 hn0
              · exact HasFile.dir hmm hrec
          have hrestcount := ih abs rel rest (n₀ :: p₀) sz hrest hndrest
            hwfrest hfile' hdot hstate
          match t with
          | .file sz' =>
            have hne : rel ++ n₀ :: p₀ ≠ rel ++ [name] := by
              intro hcon
              have := List.append_cancel_left hcon
              rw [List.cons.injEq] at this
              exact hn0 this.1
            simp only [List.map_cons, List.count_cons, hrestcount]
            simp [hne]
            exact fun h => absurd h.symm hn0
          | .dir es' =>
            rw [List.map_append, List.count_append,
              scanEntries_count_zero_sub sp abs rel name es' n₀ p₀ hn0,
              hrestcount]
          | .other => exact hrestcount

/-- C7: after a scan in which every directory read succeeds, a file
under the source root that is not excluded — no component of its
relative path begins with `.`, and neither it nor an ancestor is the
scanner-state file — appears exactly once in the scanner's output. -/
theorem scannerAllFiles_spec (statePath sourceDir : List String)
    (entries : List (String × FSTree)) (p : List String) (sz : Nat)
    (hwf : WFTree (.dir entries)) (hfile : HasFile entries p sz)
    (hdot : ∀ c ∈ p, startsWithDot c = false)
    (hstate : ∀ q, q ≠ [] → q <+: p → sourceDir ++ q ≠ statePath) :
    ((scanDirectoryRoot statePath sourceDir entries).map
      ScanRecord.relativePath).count p = 1 := by
  cases hwf with
  | dir hnd hwfs =>
    have := scanEntries_count_one statePath (sizeOf entries) sourceDir []
      entries p sz le_rfl hnd hwfs hfile hdot hstate
    simpa [scanDirectoryRoot] using this

/-- Witness for C7: a two-level tree whose file `sub/b.bin` is scanned
exactly once. -/
theorem scannerAllFiles_spec_witness :
    ((scanDirectoryRoot ["tmp", "state.json"] ["src"]
      [("a.txt", FSTree.file 3),
       ("sub", FSTree.dir [("b.bin", FSTree.file 5)])]).map
      ScanRecord.relativePath).count ["sub", "b.bin"] = 1 :=
  scannerAllFiles_spec ["tmp", "state.json"] ["src"]
    [("a.txt", FSTree.file 3),
     ("sub", FSTree.dir [("b.bin", FSTree.file 5)])]
    ["sub", "b.bin"] 5
    (WFTree.dir (by decide) (by
      intro e he
      rcases List.mem_cons.mp he with rfl | he2
      · exact WFTree.file
      · rcases List.mem_cons.mp he2 with rfl | he3
        · exact WFTree.dir (by decide) (by
            intro e' he'
            rcases List.mem_cons.mp he' with rfl | he''
            · exact WFTree.file
            · simp at he'')
        · simp at he3))
    (HasFile.dir (List.mem_cons_of_mem _ (List.mem_cons_self _ _))
      (HasFile.file (List.mem_cons_self _ _)))
    (by decide)
    (by
      intro q hq hpre hcon
      rw [show (["src"] ++ q) = "src" :: q from rfl, List.cons.injEq] at hcon
      exact absurd hcon.1 (by decide))

end WebdavBackup
